import Mathlib

/-!
Verification development for the Predict Radar pipeline: a shallow embedding
of the worker's delta computation, rule-based classification, threshold
alerting with cooldown, the provider quote normalization helpers, and the
movers read endpoint's pagination, together with theorems settling the
specification claims about these components.

Numbers are modelled with `Rat` (exact arithmetic standing in for the
program's numeric values); JavaScript's non-finite numbers are modelled
explicitly where the code branches on them (`clampProbability`).
-/

namespace PredictRadar

/-- Model of a JavaScript number as seen by `clampProbability`
(`packages/shared/src/windows.ts`): NaN, the two infinities, or a finite
value. -/
inductive JsNum where
  | nan : JsNum
  | posInf : JsNum
  | negInf : JsNum
  | fin : ℚ → JsNum
deriving DecidableEq, Repr

/-- `Math.min` semantics: NaN propagates, `-∞` is least, `+∞` greatest. -/
def jsMin : JsNum → JsNum → JsNum
  | .nan, _ => .nan
  | _, .nan => .nan
  | .negInf, _ => .negInf
  | _, .negInf => .negInf
  | .posInf, b => b
  | a, .posInf => a
  | .fin a, .fin b => .fin (min a b)

/-- `Math.max` semantics: NaN propagates, `+∞` is greatest, `-∞` least. -/
def jsMax : JsNum → JsNum → JsNum
  | .nan, _ => .nan
  | _, .nan => .nan
  | .posInf, _ => .posInf
  | _, .posInf => .posInf
  | .negInf, b => b
  | a, .negInf => a
  | .fin a, .fin b => .fin (max a b)

/-- `clampProbability` from `packages/shared/src/windows.ts`:
`if (Number.isNaN(value)) return 0; return Math.max(0, Math.min(1, value));` -/
def clampProbability (value : JsNum) : JsNum :=
  if value = .nan then .fin 0 else jsMax (.fin 0) (jsMin (.fin 1) value)

/-- Finite-input restriction of `clampProbability`, used on the adapter
paths where every input has already passed `toNumber` (which only yields
finite numbers). -/
def clampProbR (q : ℚ) : ℚ := max 0 (min 1 q)

theorem clampProbability_fin (q : ℚ) :
    clampProbability (.fin q) = .fin (clampProbR q) := by
  simp [clampProbability, jsMax, jsMin, clampProbR]

theorem clampProbR_nonneg (q : ℚ) : 0 ≤ clampProbR q := le_max_left 0 _

theorem clampProbR_le_one (q : ℚ) : clampProbR q ≤ 1 := by
  simp only [clampProbR, max_le_iff]
  exact ⟨zero_le_one, min_le_left 1 q⟩

theorem clampProbR_of_mem (q : ℚ) (h0 : 0 ≤ q) (h1 : q ≤ 1) : clampProbR q = q := by
  simp [clampProbR, min_eq_right h1, max_eq_right, h0]

/-- Rounding half away from zero to two decimals, the semantics of
PostgreSQL's `ROUND(x::numeric, 2)` used by the delta insert SQL. -/
def round2 (q : ℚ) : ℚ :=
  if 0 ≤ q then (⌊q * 100 + 1 / 2⌋ : ℚ) / 100 else -((⌊-q * 100 + 1 / 2⌋ : ℚ) / 100)

/-- The fixed window set `W`, in the iteration order of `WINDOW_SPECS`
(`apps/worker/src/tasks/market-profiles.ts`) and of the delta columns. -/
inductive WindowKey where
  | w1m | w5m | w10m | w30m | w1h | w6h | w12h | w24h
deriving DecidableEq, Repr

/-- `WINDOWS`: the ordered window list shared by the delta engine, the
alerter and the read API (the canonical set; the column enumeration in
`market-profiles.ts` and `alerts.ts` lists exactly these eight). -/
def WINDOWS : List WindowKey :=
  [.w1m, .w5m, .w10m, .w30m, .w1h, .w6h, .w12h, .w24h]

/-- Lookback minutes per window (`WINDOW_SPECS` in `market-profiles.ts`). -/
def windowMinutes : WindowKey → Int
  | .w1m => 1
  | .w5m => 5
  | .w10m => 10
  | .w30m => 30
  | .w1h => 60
  | .w6h => 360
  | .w12h => 720
  | .w24h => 1440

/-- Window labels as used in alert signatures. -/
def windowName : WindowKey → String
  | .w1m => "1m"
  | .w5m => "5m"
  | .w10m => "10m"
  | .w30m => "30m"
  | .w1h => "1h"
  | .w6h => "6h"
  | .w12h => "12h"
  | .w24h => "24h"

/-- `ALERT_THRESHOLDS` from `apps/worker/src/tasks/alerts.ts`. -/
def ALERT_THRESHOLDS : WindowKey → ℚ
  | .w1m => 6
  | .w5m => 8
  | .w10m => 10
  | .w30m => 14
  | .w1h => 18
  | .w6h => 24
  | .w12h => 30
  | .w24h => 38

theorem alert_thresholds_pos (w : WindowKey) : 0 < ALERT_THRESHOLDS w := by
  cases w <;> norm_num [ALERT_THRESHOLDS]

/-! ## Delta engine (`buildDeltaInsertSql` / `runDeltaComputation`) -/

/-- A row of `snapshots_1m` as read by the delta SQL: minute timestamp
(as minutes since an epoch), the outcome key, and the probability. -/
structure SnapshotRow where
  ts : Int
  provider : String
  market_id : String
  outcome_id : String
  probability : ℚ
deriving DecidableEq, Repr

/-- The qualifying rows of one `LEFT JOIN LATERAL` subquery: same outcome
key and `ts_minute <= cutoff`. -/
def priorSnapshots (rows : List SnapshotRow) (p m o : String) (cutoff : Int) :
    List SnapshotRow :=
  rows.filter fun r =>
    r.provider = p && r.market_id = m && r.outcome_id = o && decide (r.ts ≤ cutoff)

/-- `ORDER BY s2.ts_minute DESC LIMIT 1` over the lateral subquery. -/
def refSnapshot (rows : List SnapshotRow) (p m o : String) (cutoff : Int) :
    Option SnapshotRow :=
  (priorSnapshots rows p m o cutoff).argmax (·.ts)

/-- The delta row the insert SQL produces for one base snapshot `b`:
per window, `NULL` when the lateral lookup is empty, else
`ROUND(((b.probability - w.probability) * 100)::numeric, 2)`. -/
structure DeltaRow where
  ts : Int
  provider : String
  market_id : String
  outcome_id : String
  delta : WindowKey → Option ℚ

def deltaRowFor (rows : List SnapshotRow) (b : SnapshotRow) : DeltaRow where
  ts := b.ts
  provider := b.provider
  market_id := b.market_id
  outcome_id := b.outcome_id
  delta := fun w =>
    match refSnapshot rows b.provider b.market_id b.outcome_id
        (b.ts - windowMinutes w) with
    | none => none
    | some r => some (round2 ((b.probability - r.probability) * 100))

/-- `runDeltaComputation`: `latest` is `MAX(ts_minute)`, `base` the
snapshots at that tick, and one delta row is inserted per base row. -/
def computeDeltas (rows : List SnapshotRow) : List DeltaRow :=
  match rows.argmax (·.ts) with
  | none => []
  | some top => (rows.filter fun r => r.ts = top.ts).map (deltaRowFor rows)

theorem refSnapshot_qualifies {rows : List SnapshotRow} {p m o : String}
    {cutoff : Int} {r : SnapshotRow} (h : refSnapshot rows p m o cutoff = some r) :
    r ∈ rows ∧ r.provider = p ∧ r.market_id = m ∧ r.outcome_id = o ∧ r.ts ≤ cutoff := by
  have hr : r ∈ priorSnapshots rows p m o cutoff := List.argmax_mem h
  rw [priorSnapshots, List.mem_filter] at hr
  obtain ⟨hmem, hcond⟩ := hr
  simp only [Bool.and_eq_true, decide_eq_true_eq] at hcond
  exact ⟨hmem, hcond.1.1.1, hcond.1.1.2, hcond.1.2, hcond.2⟩

theorem refSnapshot_maximal {rows : List SnapshotRow} {p m o : String}
    {cutoff : Int} {r : SnapshotRow} (h : refSnapshot rows p m o cutoff = some r)
    {r' : SnapshotRow} (h1 : r' ∈ rows) (h2 : r'.provider = p) (h3 : r'.market_id = m)
    (h4 : r'.outcome_id = o) (h5 : r'.ts ≤ cutoff) : r'.ts ≤ r.ts := by
  have hmem : r' ∈ priorSnapshots rows p m o cutoff := by
    rw [priorSnapshots, List.mem_filter]
    exact ⟨h1, by simp [h2, h3, h4, h5]⟩
  exact List.le_of_mem_argmax hmem h

theorem refSnapshot_eq_none_iff (rows : List SnapshotRow) (p m o : String)
    (cutoff : Int) :
    refSnapshot rows p m o cutoff = none ↔
      ∀ r ∈ rows, r.provider = p → r.market_id = m → r.outcome_id = o →
        ¬(r.ts ≤ cutoff) := by
  rw [refSnapshot, List.argmax_eq_none, priorSnapshots, List.filter_eq_nil_iff]
  constructor
  · intro h r hr h2 h3 h4 h5
    have := h r hr
    simp [h2, h3, h4, h5] at this
  · intro h r hr
    intro hc
    simp only [Bool.and_eq_true, decide_eq_true_eq] at hc
    exact h r hr hc.1.1.1 hc.1.1.2 hc.1.2 hc.2

/-- C1. For every outcome present at the latest snapshot tick `t*` and every
window `w`, the delta row written for it by the delta computation has
`delta_w = round_2((prob(t*) − prob(ref)) · 100)` where `ref` is the most
recent snapshot of the same `(provider, market_id, outcome_id)` with
`ts_minute ≤ t* − w` minutes, and `delta_w = NULL` when no such prior
snapshot exists.  Stated under uniqueness of the snapshot primary key
`(ts_minute, provider, market_id, outcome_id)`. -/
theorem delta_row_matches_most_recent_reference
    (rows : List SnapshotRow) (b : SnapshotRow) (w : WindowKey)
    (hb : b ∈ rows) (hlatest : ∀ r ∈ rows, r.ts ≤ b.ts)
    (hkeys : ∀ a ∈ rows, ∀ c ∈ rows, a.ts = c.ts → a.provider = c.provider →
      a.market_id = c.market_id → a.outcome_id = c.outcome_id → a = c) :
    deltaRowFor rows b ∈ computeDeltas rows ∧
    ((∀ r ∈ rows, r.provider = b.provider → r.market_id = b.market_id →
        r.outcome_id = b.outcome_id → ¬(r.ts ≤ b.ts - windowMinutes w)) →
      (deltaRowFor rows b).delta w = none) ∧
    (∀ r ∈ rows, r.provider = b.provider → r.market_id = b.market_id →
      r.outcome_id = b.outcome_id → r.ts ≤ b.ts - windowMinutes w →
      (∀ r' ∈ rows, r'.provider = b.provider → r'.market_id = b.market_id →
        r'.outcome_id = b.outcome_id → r'.ts ≤ b.ts - windowMinutes w →
        r'.ts ≤ r.ts) →
      (deltaRowFor rows b).delta w =
        some (round2 ((b.probability - r.probability) * 100))) := by
  refine ⟨?_, ?_, ?_⟩
  · -- the computation emits a row for b, since b is at the max tick
    rw [computeDeltas]
    obtain ⟨top, htop⟩ : ∃ top, rows.argmax (·.ts) = some top := by
      cases h : rows.argmax (·.ts) with
      | none =>
        rw [List.argmax_eq_none] at h
        subst h; cases hb
      | some top => exact ⟨top, rfl⟩
    rw [htop]
    have hbts : b.ts = top.ts :=
      le_antisymm (List.le_of_mem_argmax hb htop) (hlatest top (List.argmax_mem htop))
    exact List.mem_map_of_mem _ (List.mem_filter.mpr ⟨hb, by simp [hbts]⟩)
  · -- no qualifying prior snapshot ⇒ NULL
    intro hnone
    have : refSnapshot rows b.provider b.market_id b.outcome_id
        (b.ts - windowMinutes w) = none :=
      (refSnapshot_eq_none_iff rows _ _ _ _).mpr hnone
    simp [deltaRowFor, this]
  · -- a most recent qualifying snapshot r ⇒ its rounded pp difference
    intro r hr h2 h3 h4 h5 hmax
    obtain ⟨m, hm⟩ : ∃ m, refSnapshot rows b.provider b.market_id b.outcome_id
        (b.ts - windowMinutes w) = some m := by
      cases h : refSnapshot rows b.provider b.market_id b.outcome_id
          (b.ts - windowMinutes w) with
      | none =>
        rw [refSnapshot_eq_none_iff] at h
        exact absurd h5 (h r hr h2 h3 h4)
      | some m => exact ⟨m, rfl⟩
    obtain ⟨hmmem, hmp, hmm, hmo, hmts⟩ := refSnapshot_qualifies hm
    have hts : m.ts = r.ts :=
      le_antisymm (hmax m hmmem hmp hmm hmo hmts)
        (refSnapshot_maximal hm hr h2 h3 h4 h5)
    have : m = r :=
      hkeys m hmmem r hr hts (hmp.trans h2.symm) (hmm.trans h3.symm)
        (hmo.trans h4.symm)
    subst this
    simp [deltaRowFor, hm]

/-- Witness for C1 at a concrete two-snapshot history: at tick 10 with prior
snapshot at tick 9, `delta_1m = round_2((0.7 − 0.5)·100) = 20`. -/
theorem delta_row_matches_most_recent_reference_witness :
    (deltaRowFor
      [⟨10, "kalshi", "M", "M-yes", 7/10⟩, ⟨9, "kalshi", "M", "M-yes", 1/2⟩]
      ⟨10, "kalshi", "M", "M-yes", 7/10⟩).delta .w1m = some 20 := by
  have h := delta_row_matches_most_recent_reference
    [⟨10, "kalshi", "M", "M-yes", 7/10⟩, ⟨9, "kalshi", "M", "M-yes", 1/2⟩]
    ⟨10, "kalshi", "M", "M-yes", 7/10⟩ .w1m (by simp)
    (by norm_num [List.forall_mem_cons]) (by norm_num [List.forall_mem_cons])
  have h2 := h.2.2 ⟨9, "kalshi", "M", "M-yes", 1/2⟩ (by simp) rfl rfl rfl
    (by norm_num [windowMinutes])
    (by norm_num [List.forall_mem_cons, windowMinutes])
  rw [h2]
  norm_num [round2]

/-! ## Classifier (`runClassification` in the classification task) -/

/-- Lowercasing, `String.prototype.toLowerCase` over the char list. -/
def lowerStr (s : String) : String := ⟨s.data.map Char.toLower⟩

/-- Substring check (`String.prototype.includes`). -/
def strIncludes (hay needle : String) : Bool := decide (needle.data <:+: hay.data)

/-- `cryptoWords` from `utils/normalize` (`market-text.ts`). -/
def cryptoWords : List String :=
  ["btc", "bitcoin", "eth", "ethereum", "sol", "crypto", "price"]

/-- `sportsWords` from `utils/normalize`. -/
def sportsWords : List String :=
  ["vs", "mlb", "nba", "nfl", "score", "goal", "inning", "match", "game"]

/-- `isCryptoLinked`: some crypto keyword occurs in the lowercased title. -/
def isCryptoLinked (title : String) : Bool :=
  cryptoWords.any fun w => strIncludes (lowerStr title) w

/-- `isSportsLinked`: some sports keyword occurs in the lowercased title. -/
def isSportsLinked (title : String) : Bool :=
  sportsWords.any fun w => strIncludes (lowerStr title) w

inductive AnchorType where
  | spot_price_anchored
  | live_score_anchored
  | scheduled_macro_release
  | policy_regulatory_decision
  | sports_team_news
  | crypto_news_security
  | other_unknown
deriving DecidableEq, Repr

/-- `asAnchorType`: parse the stored anchor-type string, `null` otherwise. -/
def asAnchorType : Option String → Option AnchorType
  | none => none
  | some s =>
    if s = "spot_price_anchored" then some .spot_price_anchored
    else if s = "live_score_anchored" then some .live_score_anchored
    else if s = "scheduled_macro_release" then some .scheduled_macro_release
    else if s = "policy_regulatory_decision" then some .policy_regulatory_decision
    else if s = "sports_team_news" then some .sports_team_news
    else if s = "crypto_news_security" then some .crypto_news_security
    else if s = "other_unknown" then some .other_unknown
    else none

/-- One joined input row of `runClassification` (deltas ⋈ markets ⋈
snapshots ⋈ profiles at the latest tick). -/
structure ClassificationInputRow where
  title : String
  normalized_category : String
  spread_pp : Option ℚ
  volume_24h_usd : Option ℚ
  delta_1m : Option ℚ
  delta_24h : Option ℚ
  anchor_type : Option String
  profile_confidence : Option ℚ
deriving DecidableEq, Repr

/-- The `{btc1mPct, eth1mPct}` record from `fetchExternalSignals`. -/
structure ExternalSignals where
  btc1mPct : Option ℚ
  eth1mPct : Option ℚ
deriving DecidableEq, Repr

/-- `clampScore`: `Math.max(0, Math.min(100, value))`. -/
def clampScore (value : ℚ) : ℚ := max 0 (min 100 value)

/-- `Math.max(0, Math.min(1, row.profile_confidence ?? 0))`. -/
def profileConfidenceOf (row : ClassificationInputRow) : ℚ :=
  max 0 (min 1 (row.profile_confidence.getD 0))

/-- Mutable score accumulator of the classification loop. -/
structure ScoreState where
  opaqueScore : ℚ
  exogenousScore : ℚ
  tags : List String
deriving DecidableEq, Repr

/-- The classification rule cascade up to (not including) the
`abrupt_micro_move` rule, in source order. -/
def scoresBeforeAbrupt (row : ClassificationInputRow) (external : ExternalSignals) :
    ScoreState :=
  let title := row.title
  let abs1m := |row.delta_1m.getD 0|
  let anchorType := asAnchorType row.anchor_type
  let profileConfidence := profileConfidenceOf row
  let normalizedCategory := lowerStr row.normalized_category
  let s0 : ScoreState := ⟨20, 10, []⟩
  -- anchor-type prior
  let s1 :=
    match anchorType with
    | none => s0
    | some a =>
      let conf := if 0 < profileConfidence then profileConfidence else 7/10
      match a with
      | .live_score_anchored =>
          { s0 with exogenousScore := s0.exogenousScore + 60 * conf, tags := s0.tags ++ ["anchor_live_score"] }
      | .spot_price_anchored =>
          { s0 with exogenousScore := s0.exogenousScore + 55 * conf, tags := s0.tags ++ ["anchor_spot_price"] }
      | .sports_team_news =>
          { s0 with opaqueScore := s0.opaqueScore + 45 * conf,
                    tags := s0.tags ++ ["anchor_sports_team_news"] }
      | .crypto_news_security =>
          { s0 with opaqueScore := s0.opaqueScore + 45 * conf,
                    tags := s0.tags ++ ["anchor_crypto_news"] }
      | .scheduled_macro_release =>
          { s0 with opaqueScore := s0.opaqueScore + 35 * conf,
                    tags := s0.tags ++ ["anchor_macro_release"] }
      | .policy_regulatory_decision =>
          { s0 with opaqueScore := s0.opaqueScore + 30 * conf,
                    tags := s0.tags ++ ["anchor_policy_decision"] }
      | .other_unknown => { s0 with tags := s0.tags ++ ["anchor_unknown"] }
  -- sports fallback when the profile is missing or unknown
  let s2 :=
    if (anchorType = none ∨ anchorType = some .other_unknown) ∧
        (normalizedCategory = "sports" ∨ isSportsLinked title) then
      { s1 with exogenousScore := s1.exogenousScore + 15, tags := s1.tags ++ ["sports_related"] }
    else s1
  -- crypto fallback when the profile is missing or unknown
  let isCryptoContext := normalizedCategory = "crypto" ∨ isCryptoLinked title
  let s3 :=
    if (anchorType = none ∨ anchorType = some .other_unknown) ∧ isCryptoContext then
      { s2 with exogenousScore := s2.exogenousScore + 10, tags := s2.tags ++ ["crypto_related"] }
    else s2
  -- spot-price shock, only for spot-anchored markets
  let move := max |external.btc1mPct.getD 0| |external.eth1mPct.getD 0|
  let s4 :=
    if anchorType = some .spot_price_anchored ∧ 8/10 ≤ move then
      { s3 with exogenousScore := s3.exogenousScore + 18, tags := s3.tags ++ ["spot_price_shock"] }
    else s3
  -- opaque-info-prone category
  let s5 :=
    if normalizedCategory ∈ ["politics", "policy", "macro", "other"] then
      { s4 with opaqueScore := s4.opaqueScore + 20, tags := s4.tags ++ ["opaque_info_prone_category"] }
    else s4
  -- meaningful size move
  let s6 :=
    if 10000 ≤ row.volume_24h_usd.getD 0 ∧ 4 ≤ abs1m then
      { s5 with opaqueScore := s5.opaqueScore + 20, tags := s5.tags ++ ["meaningful_size_move"] }
    else s5
  -- tight spread
  if row.spread_pp.getD 100 ≤ 8 then
    { s6 with opaqueScore := s6.opaqueScore + 10, tags := s6.tags ++ ["tight_spread"] }
  else s6

/-- The `abrupt_micro_move` rule: on `|delta_1m| ≥ 15`, push the tag, then
bump exogenous by `12 * (profileConfidence || 0.9)` for live/spot anchors
and opaque by 10 otherwise. -/
def scoresAfterRules (row : ClassificationInputRow) (external : ExternalSignals) :
    ScoreState :=
  let s := scoresBeforeAbrupt row external
  let abs1m := |row.delta_1m.getD 0|
  let anchorType := asAnchorType row.anchor_type
  let profileConfidence := profileConfidenceOf row
  if 15 ≤ abs1m then
    if anchorType = some .live_score_anchored ∨ anchorType = some .spot_price_anchored then
      { s with exogenousScore := s.exogenousScore + 12 * (if profileConfidence = 0 then 9/10 else profileConfidence),
               tags := s.tags ++ ["abrupt_micro_move"] }
    else
      { s with opaqueScore := s.opaqueScore + 10, tags := s.tags ++ ["abrupt_micro_move"] }
  else s

/-- One written `classification_scores` row. -/
structure ClassificationResult where
  opaqueScore : ℚ
  exogenousScore : ℚ
  reasonTags : List String
  label : String
deriving DecidableEq, Repr

/-- The full per-row classification: rule cascade, clamping, labeling. -/
def classifyRow (row : ClassificationInputRow) (external : ExternalSignals) :
    ClassificationResult :=
  let s := scoresAfterRules row external
  let o := clampScore s.opaqueScore
  let e := clampScore s.exogenousScore
  { opaqueScore := o
    exogenousScore := e
    reasonTags := s.tags
    label :=
      if e ≤ o ∧ 50 ≤ o then "opaque_info_sensitive"
      else if 50 ≤ e then "exogenous_arbitrage"
      else "unclear" }

theorem clampScore_nonneg (v : ℚ) : 0 ≤ clampScore v := le_max_left 0 _

theorem clampScore_le_100 (v : ℚ) : clampScore v ≤ 100 := by
  simp only [clampScore, max_le_iff]
  constructor
  · norm_num
  · exact min_le_left 100 v

/-- C3. Every classification row has both scores clamped into `[0, 100]`,
and the stored label is `opaque_info_sensitive` when the clamped opaque
score is ≥ the clamped exogenous score and ≥ 50, else
`exogenous_arbitrage` when the clamped exogenous score is ≥ 50, else
`unclear`. -/
theorem classification_scores_clamped_and_label
    (row : ClassificationInputRow) (external : ExternalSignals) :
    (0 ≤ (classifyRow row external).opaqueScore ∧
      (classifyRow row external).opaqueScore ≤ 100) ∧
    (0 ≤ (classifyRow row external).exogenousScore ∧
      (classifyRow row external).exogenousScore ≤ 100) ∧
    (classifyRow row external).label =
      (if (classifyRow row external).exogenousScore ≤ (classifyRow row external).opaqueScore ∧
          50 ≤ (classifyRow row external).opaqueScore then "opaque_info_sensitive"
       else if 50 ≤ (classifyRow row external).exogenousScore then "exogenous_arbitrage"
       else "unclear") :=
  ⟨⟨clampScore_nonneg _, clampScore_le_100 _⟩,
   ⟨clampScore_nonneg _, clampScore_le_100 _⟩, rfl⟩

/-- Shared form of the `abrupt_micro_move` exogenous branch: for
`|delta_1m| ≥ 15` on a live-score or spot-price anchored market the rule
adds `12 * (profileConfidence || 0.9)` — the clamped confidence when it is
positive, `0.9` when it is zero. -/
theorem scoresAfterRules_abrupt_formula (row : ClassificationInputRow)
    (external : ExternalSignals) (h15 : 15 ≤ |row.delta_1m.getD 0|)
    (hanchor : asAnchorType row.anchor_type = some .live_score_anchored ∨
      asAnchorType row.anchor_type = some .spot_price_anchored) :
    scoresAfterRules row external =
      { opaqueScore := (scoresBeforeAbrupt row external).opaqueScore
        exogenousScore := (scoresBeforeAbrupt row external).exogenousScore +
          12 * (if profileConfidenceOf row = 0 then 9/10 else profileConfidenceOf row)
        tags := (scoresBeforeAbrupt row external).tags ++ ["abrupt_micro_move"] } := by
  simp only [scoresAfterRules]
  rw [if_pos h15, if_pos hanchor]

/-- A spot-price-anchored input row with clamped confidence 1/2, a 15 pp
one-minute move, and no other rule firing. -/
def abruptConfRow : ClassificationInputRow :=
  { title := ""
    normalized_category := ""
    spread_pp := none
    volume_24h_usd := none
    delta_1m := some 15
    delta_24h := none
    anchor_type := some "spot_price_anchored"
    profile_confidence := some (1/2) }

/-- External signals with no spot move observed. -/
def noSignals : ExternalSignals := ⟨none, none⟩

theorem scoresBeforeAbrupt_abruptConfRow :
    scoresBeforeAbrupt abruptConfRow noSignals =
      ⟨20, 10 + 55 * (1/2), ["anchor_spot_price"]⟩ := by
  have e2 : isSportsLinked abruptConfRow.title = false := by decide
  have e3 : isCryptoLinked abruptConfRow.title = false := by decide
  have e4 : asAnchorType abruptConfRow.anchor_type = some .spot_price_anchored := by
    decide
  have e5 : profileConfidenceOf abruptConfRow = 1/2 := by
    norm_num [profileConfidenceOf, abruptConfRow, min_def, max_def]
  have f2 : lowerStr abruptConfRow.normalized_category = "" := rfl
  have f3 : abruptConfRow.spread_pp = none := rfl
  have f4 : abruptConfRow.volume_24h_usd = none := rfl
  have f5 : abruptConfRow.delta_1m = some 15 := rfl
  have g1 : noSignals.btc1mPct = none := rfl
  have g2 : noSignals.eth1mPct = none := rfl
  simp only [scoresBeforeAbrupt, e2, e3, e4, e5, f2, f3, f4, f5, g1, g2,
    Option.getD_some, Option.getD_none]
  norm_num
  simp

/-- C5 counterexample. On `abruptConfRow` (anchor `spot_price_anchored`,
clamped confidence `1/2`, `delta_1m = 15`) the code adds
`12 · (conf || 0.9) = 12 · 0.5 = 6` to the exogenous score, giving `87/2`,
whereas the claim's `12 · max(conf, 0.9) = 10.8` would give `483/10`;
the two disagree, so the claim as stated is false. -/
theorem abrupt_micro_move_claim_counterexample :
    (classifyRow abruptConfRow noSignals).exogenousScore = 87/2 ∧
    clampScore ((scoresBeforeAbrupt abruptConfRow noSignals).exogenousScore +
      12 * max (profileConfidenceOf abruptConfRow) (9/10)) = 483/10 ∧
    (87/2 : ℚ) ≠ 483/10 := by
  have e4 : asAnchorType (some "spot_price_anchored") = some .spot_price_anchored := by
    decide
  have e5 : profileConfidenceOf abruptConfRow = 1/2 := by
    norm_num [profileConfidenceOf, abruptConfRow, min_def, max_def]
  have h15 : (15 : ℚ) ≤ |(abruptConfRow.delta_1m).getD 0| := by
    norm_num [abruptConfRow]
  have hb := scoresAfterRules_abrupt_formula abruptConfRow noSignals h15
    (Or.inr (by rw [abruptConfRow]; exact e4))
  refine ⟨?_, ?_, by norm_num⟩
  · show clampScore (scoresAfterRules abruptConfRow noSignals).exogenousScore = 87/2
    rw [hb, scoresBeforeAbrupt_abruptConfRow, e5]
    norm_num [clampScore, min_def, max_def]
  · rw [scoresBeforeAbrupt_abruptConfRow, e5]
    norm_num [clampScore, min_def, max_def]

/-- C5 (amended). For every classified outcome with `|delta_1m| ≥ 15` whose
profile anchor is live-score or spot-price anchored, the exogenous score is
the clamp of its pre-rule value plus `12 · conf` when the clamped profile
confidence `conf` is positive and plus `12 · 0.9` when it is zero (the
JavaScript `conf || 0.9`), and the tag `abrupt_micro_move` is appended. -/
theorem abrupt_micro_move_exog_bump (row : ClassificationInputRow)
    (external : ExternalSignals) (h15 : 15 ≤ |row.delta_1m.getD 0|)
    (hanchor : asAnchorType row.anchor_type = some .live_score_anchored ∨
      asAnchorType row.anchor_type = some .spot_price_anchored) :
    (classifyRow row external).exogenousScore =
      clampScore ((scoresBeforeAbrupt row external).exogenousScore +
        12 * (if profileConfidenceOf row = 0 then 9/10 else profileConfidenceOf row)) ∧
    "abrupt_micro_move" ∈ (classifyRow row external).reasonTags := by
  have h := scoresAfterRules_abrupt_formula row external h15 hanchor
  constructor
  · show clampScore (scoresAfterRules row external).exogenousScore = _
    rw [h]
  · show "abrupt_micro_move" ∈ (scoresAfterRules row external).tags
    rw [h]
    exact List.mem_append_right _ (by simp)

/-- Witness for the amended C5 at `abruptConfRow`. -/
theorem abrupt_micro_move_exog_bump_witness :
    "abrupt_micro_move" ∈ (classifyRow abruptConfRow noSignals).reasonTags :=
  (abrupt_micro_move_exog_bump abruptConfRow noSignals
    (by norm_num [abruptConfRow])
    (Or.inr (by rw [abruptConfRow]; exact by decide))).2

/-! ## Alerter (`apps/worker/src/tasks/alerts.ts`) -/

/-- One selected alert-candidate row (the delta columns it carries). -/
structure AlertRow where
  provider : String
  market_id : String
  outcome_id : String
  delta_1m : Option ℚ
  delta_5m : Option ℚ
  delta_10m : Option ℚ
  delta_30m : Option ℚ
  delta_1h : Option ℚ
  delta_6h : Option ℚ
  delta_12h : Option ℚ
  delta_24h : Option ℚ
deriving DecidableEq, Repr

/-- `extractDelta`: the delta column for a window. -/
def extractDelta (row : AlertRow) : WindowKey → Option ℚ
  | .w1m => row.delta_1m
  | .w5m => row.delta_5m
  | .w10m => row.delta_10m
  | .w30m => row.delta_30m
  | .w1h => row.delta_1h
  | .w6h => row.delta_6h
  | .w12h => row.delta_12h
  | .w24h => row.delta_24h

/-- The mutable `best` accumulator of `pickBestTriggeredWindow`. -/
structure BestWindow where
  window : WindowKey
  delta : ℚ
  score : ℚ
deriving DecidableEq, Repr

/-- The loop body of `pickBestTriggeredWindow`: skip null deltas, skip
windows below threshold, keep the strictly larger score. -/
def pickBestAux (row : AlertRow) : List WindowKey → Option BestWindow → Option BestWindow
  | [], best => best
  | w :: rest, best =>
    match extractDelta row w with
    | none => pickBestAux row rest best
    | some d =>
      if |d| < ALERT_THRESHOLDS w then pickBestAux row rest best
      else
        let score := |d| / ALERT_THRESHOLDS w
        match best with
        | none => pickBestAux row rest (some ⟨w, d, score⟩)
        | some b =>
          if b.score < score then pickBestAux row rest (some ⟨w, d, score⟩)
          else pickBestAux row rest (some b)

/-- `pickBestTriggeredWindow`, returning `{window, delta}`. -/
def pickBestTriggeredWindow (row : AlertRow) : Option (WindowKey × ℚ) :=
  (pickBestAux row WINDOWS none).map fun b => (b.window, b.delta)

/-- `direction`: `UP` when the chosen delta is ≥ 0, else `DOWN`. -/
def direction (d : ℚ) : String := if 0 ≤ d then "UP" else "DOWN"

/-- A `BestWindow` accumulator entry is well-formed for `row`. -/
def ValidBest (row : AlertRow) (b : BestWindow) : Prop :=
  extractDelta row b.window = some b.delta ∧
  ALERT_THRESHOLDS b.window ≤ |b.delta| ∧
  b.score = |b.delta| / ALERT_THRESHOLDS b.window

theorem pickBestAux_valid (row : AlertRow) (ws : List WindowKey) :
    ∀ acc : Option BestWindow, (∀ a, acc = some a → ValidBest row a) →
      ∀ b, pickBestAux row ws acc = some b → ValidBest row b := by
  induction ws with
  | nil => intro acc hacc b hb; exact hacc b hb
  | cons w rest ih =>
    intro acc hacc b hb
    rw [pickBestAux] at hb
    cases hd : extractDelta row w with
    | none =>
      rw [hd] at hb
      simp only [] at hb
      exact ih acc hacc b hb
    | some d =>
      rw [hd] at hb
      simp only [] at hb
      by_cases hlt : |d| < ALERT_THRESHOLDS w
      · rw [if_pos hlt] at hb
        exact ih acc hacc b hb
      · rw [if_neg hlt] at hb
        cases hacccase : acc with
        | none =>
          rw [hacccase] at hb
          simp only [] at hb
          refine ih _ ?_ b hb
          rintro a rfl'
          cases rfl'
          exact ⟨hd, not_lt.mp hlt, rfl⟩
        | some a =>
          rw [hacccase] at hb
          simp only [] at hb
          by_cases hsc : a.score < |d| / ALERT_THRESHOLDS w
          · rw [if_pos hsc] at hb
            refine ih _ ?_ b hb
            rintro a' rfl'
            cases rfl'
            exact ⟨hd, not_lt.mp hlt, rfl⟩
          · rw [if_neg hsc] at hb
            refine ih _ ?_ b hb
            rintro a' rfl'
            cases rfl'
            exact hacc a (by rw [hacccase])

theorem pickBestAux_maximal (row : AlertRow) (ws : List WindowKey) :
    ∀ acc : Option BestWindow, ∀ b, pickBestAux row ws acc = some b →
      (∀ w ∈ ws, ∀ d, extractDelta row w = some d → ALERT_THRESHOLDS w ≤ |d| →
        |d| / ALERT_THRESHOLDS w ≤ b.score) ∧
      (∀ a, acc = some a → a.score ≤ b.score) := by
  induction ws with
  | nil =>
    intro acc b hb
    refine ⟨by simp, ?_⟩
    rintro a rfl'
    rw [pickBestAux] at hb
    rw [hb] at rfl'
    cases rfl'
    exact le_refl _
  | cons w rest ih =>
    intro acc b hb
    rw [pickBestAux] at hb
    cases hd : extractDelta row w with
    | none =>
      rw [hd] at hb
      simp only [] at hb
      obtain ⟨h1, h2⟩ := ih acc b hb
      refine ⟨?_, h2⟩
      intro w' hw' d' hd' hth
      rcases List.mem_cons.mp hw' with rfl | hw'
      · rw [hd] at hd'; cases hd'
      · exact h1 w' hw' d' hd' hth
    | some d =>
      rw [hd] at hb
      simp only [] at hb
      by_cases hlt : |d| < ALERT_THRESHOLDS w
      · rw [if_pos hlt] at hb
        obtain ⟨h1, h2⟩ := ih acc b hb
        refine ⟨?_, h2⟩
        intro w' hw' d' hd' hth
        rcases List.mem_cons.mp hw' with rfl | hw'
        · rw [hd] at hd'
          cases hd'
          exact absurd hth (not_le.mpr hlt)
        · exact h1 w' hw' d' hd' hth
      · rw [if_neg hlt] at hb
        cases hacccase : acc with
        | none =>
          rw [hacccase] at hb
          simp only [] at hb
          obtain ⟨h1, h2⟩ := ih _ b hb
          have hself : |d| / ALERT_THRESHOLDS w ≤ b.score :=
            h2 ⟨w, d, |d| / ALERT_THRESHOLDS w⟩ rfl
          refine ⟨?_, by intro a ha; simp at ha⟩
          intro w' hw' d' hd' hth
          rcases List.mem_cons.mp hw' with rfl | hw'
          · rw [hd] at hd'; cases hd'; exact hself
          · exact h1 w' hw' d' hd' hth
        | some a =>
          rw [hacccase] at hb
          simp only [] at hb
          by_cases hsc : a.score < |d| / ALERT_THRESHOLDS w
          · rw [if_pos hsc] at hb
            obtain ⟨h1, h2⟩ := ih _ b hb
            have hself : |d| / ALERT_THRESHOLDS w ≤ b.score :=
              h2 ⟨w, d, |d| / ALERT_THRESHOLDS w⟩ rfl
            refine ⟨?_, ?_⟩
            · intro w' hw' d' hd' hth
              rcases List.mem_cons.mp hw' with rfl | hw'
              · rw [hd] at hd'; cases hd'; exact hself
              · exact h1 w' hw' d' hd' hth
            · rintro a' rfl'
              cases rfl'
              exact le_trans (le_of_lt hsc) hself
          · rw [if_neg hsc] at hb
            obtain ⟨h1, h2⟩ := ih _ b hb
            have hself : a.score ≤ b.score := h2 a rfl
            refine ⟨?_, ?_⟩
            · intro w' hw' d' hd' hth
              rcases List.mem_cons.mp hw' with rfl | hw'
              · rw [hd] at hd'
                cases hd'
                exact le_trans (not_lt.mp hsc) hself
              · exact h1 w' hw' d' hd' hth
            · rintro a' rfl'
              cases rfl'
              exact hself

theorem pickBestAux_none_iff (row : AlertRow) (ws : List WindowKey) :
    ∀ acc : Option BestWindow,
      (pickBestAux row ws acc = none ↔
        acc = none ∧ ∀ w ∈ ws, ∀ d, extractDelta row w = some d →
          |d| < ALERT_THRESHOLDS w) := by
  induction ws with
  | nil =>
    intro acc
    simp [pickBestAux]
  | cons w rest ih =>
    intro acc
    rw [pickBestAux]
    cases hd : extractDelta row w with
    | none =>
      simp only []
      rw [ih acc]
      constructor
      · rintro ⟨h1, h2⟩
        refine ⟨h1, ?_⟩
        intro w' hw' d' hd'
        rcases List.mem_cons.mp hw' with rfl | hw'
        · rw [hd] at hd'; cases hd'
        · exact h2 w' hw' d' hd'
      · rintro ⟨h1, h2⟩
        exact ⟨h1, fun w' hw' d' hd' => h2 w' (List.mem_cons_of_mem w hw') d' hd'⟩
    | some d =>
      simp only []
      by_cases hlt : |d| < ALERT_THRESHOLDS w
      · rw [if_pos hlt, ih acc]
        constructor
        · rintro ⟨h1, h2⟩
          refine ⟨h1, ?_⟩
          intro w' hw' d' hd'
          rcases List.mem_cons.mp hw' with rfl | hw'
          · rw [hd] at hd'; cases hd'; exact hlt
          · exact h2 w' hw' d' hd'
        · rintro ⟨h1, h2⟩
          exact ⟨h1, fun w' hw' d' hd' => h2 w' (List.mem_cons_of_mem w hw') d' hd'⟩
      · rw [if_neg hlt]
        constructor
        · intro hnone
          exfalso
          cases hacccase : acc with
          | none =>
            rw [hacccase] at hnone
            simp only [] at hnone
            have := (ih (some ⟨w, d, |d| / ALERT_THRESHOLDS w⟩)).mp hnone
            cases this.1
          | some a =>
            rw [hacccase] at hnone
            simp only [] at hnone
            by_cases hsc : a.score < |d| / ALERT_THRESHOLDS w
            · rw [if_pos hsc] at hnone
              have := (ih (some ⟨w, d, |d| / ALERT_THRESHOLDS w⟩)).mp hnone
              cases this.1
            · rw [if_neg hsc] at hnone
              have := (ih (some a)).mp hnone
              cases this.1
        · rintro ⟨h1, h2⟩
          exact absurd (h2 w (List.mem_cons_self w rest) d hd) (by simpa using hlt)

/-- The spec's best-window example: thresholds `{1m:6, 5m:8, 30m:14}` with
deltas `{1m:+7, 5m:+9, 30m:+20}` and every other window null. -/
def bestWindowExampleRow : AlertRow :=
  { provider := "p", market_id := "m", outcome_id := "o"
    delta_1m := some 7, delta_5m := some 9, delta_10m := none
    delta_30m := some 20, delta_1h := none, delta_6h := none
    delta_12h := none, delta_24h := none }

theorem pickBest_example_eval :
    pickBestTriggeredWindow bestWindowExampleRow = some (.w30m, 20) := by
  have a7 : |(7 : ℚ)| = 7 := abs_of_nonneg (by norm_num)
  have a9 : |(9 : ℚ)| = 9 := abs_of_nonneg (by norm_num)
  have a20 : |(20 : ℚ)| = 20 := abs_of_nonneg (by norm_num)
  simp only [pickBestTriggeredWindow, WINDOWS, pickBestAux, extractDelta,
    bestWindowExampleRow, ALERT_THRESHOLDS, a7, a9, a20]
  norm_num

/-- C4. The best triggered window: `pickBestTriggeredWindow` returns none
exactly when every non-null window delta is below its threshold (so the row
is skipped); when it returns `(w, d)`, `d` is `w`'s delta, `|d|` reaches
`w`'s threshold (score ≥ 1), and `w`'s score `|d|/threshold w` is maximal
among all triggered windows.  At the spec's example deltas the chosen
window is `30m` with direction `UP`. -/
theorem best_triggered_window_spec (row : AlertRow) :
    (pickBestTriggeredWindow row = none ↔
      ∀ w ∈ WINDOWS, ∀ d, extractDelta row w = some d →
        |d| < ALERT_THRESHOLDS w) ∧
    (∀ w d, pickBestTriggeredWindow row = some (w, d) →
      extractDelta row w = some d ∧ ALERT_THRESHOLDS w ≤ |d| ∧
      1 ≤ |d| / ALERT_THRESHOLDS w ∧
      ∀ w' ∈ WINDOWS, ∀ d', extractDelta row w' = some d' →
        ALERT_THRESHOLDS w' ≤ |d'| →
        |d'| / ALERT_THRESHOLDS w' ≤ |d| / ALERT_THRESHOLDS w) ∧
    (pickBestTriggeredWindow bestWindowExampleRow = some (.w30m, 20) ∧
      direction 20 = "UP") := by
  refine ⟨?_, ?_, pickBest_example_eval, by norm_num [direction]⟩
  · rw [pickBestTriggeredWindow]
    constructor
    · intro h
      cases haux : pickBestAux row WINDOWS none with
      | none => exact ((pickBestAux_none_iff row WINDOWS none).mp haux).2
      | some b => rw [haux] at h; cases h
    · intro h
      rw [(pickBestAux_none_iff row WINDOWS none).mpr ⟨rfl, h⟩]
      rfl
  · intro w d hsome
    rw [pickBestTriggeredWindow] at hsome
    cases haux : pickBestAux row WINDOWS none with
    | none => rw [haux] at hsome; cases hsome
    | some b =>
      rw [haux] at hsome
      simp only [Option.map_some'] at hsome
      obtain ⟨hw, hd⟩ := Prod.mk.injEq .. ▸ Option.some.inj hsome
      have hval := pickBestAux_valid row WINDOWS none
        (by intro a ha; cases ha) b haux
      have hmax := pickBestAux_maximal row WINDOWS none b haux
      subst hw
      subst hd
      refine ⟨hval.1, hval.2.1, (one_le_div (alert_thresholds_pos _)).mpr hval.2.1, ?_⟩
      intro w' hw' d' hd' hth
      have h := hmax.1 w' hw' d' hd' hth
      rwa [hval.2.2] at h

/-- An alert row with every window delta null: no window triggers. -/
def quietAlertRow : AlertRow :=
  { provider := "p", market_id := "m", outcome_id := "o"
    delta_1m := none, delta_5m := none, delta_10m := none
    delta_30m := none, delta_1h := none, delta_6h := none
    delta_12h := none, delta_24h := none }

/-- Witness for C4: on a row with no deltas the alerter skips (no window). -/
theorem best_triggered_window_spec_witness :
    pickBestTriggeredWindow quietAlertRow = none :=
  (best_triggered_window_spec quietAlertRow).1.mpr
    (by intro w hw d hd; cases w <;> simp [extractDelta, quietAlertRow] at hd)

/-- The `alert_state` table: signature → `last_sent_at` (epoch ms). -/
def AlertState := String → Option Int

/-- The alert signature `provider:market:outcome:window:direction`. -/
def signatureOf (row : AlertRow) (w : WindowKey) (d : ℚ) : String :=
  row.provider ++ ":" ++ row.market_id ++ ":" ++ row.outcome_id ++ ":" ++
    windowName w ++ ":" ++ direction d

/-- `canSend`: true when no state row exists, or when
`(now − last_sent_at) / 60000` minutes have reached the cooldown. -/
def canSend (cooldown : ℚ) (now : Int) (st : AlertState) (sig : String) : Bool :=
  match st sig with
  | none => true
  | some t => decide (cooldown ≤ ((now - t : Int) : ℚ) / 60000)

/-- `markSent`: upsert `last_sent_at = now` for the signature. -/
def markSent (st : AlertState) (sig : String) (now : Int) : AlertState :=
  fun s => if s = sig then some now else st s

/-- One `runAlerts` pass over the selected rows at wall-clock `now`.
Returns the final alert state and the ordered signatures sent; when the
chat send throws for a row (`fails row`), the loop aborts as the exception
propagates, carrying the state and sends so far plus the failing row's
signature — crucially without having called `markSent` for it. -/
def runAlerts (cooldown : ℚ) (now : Int) (fails : AlertRow → Bool) :
    List AlertRow → AlertState →
      Except (AlertState × List String × String) (AlertState × List String)
  | [], st => .ok (st, [])
  | row :: rest, st =>
    match pickBestTriggeredWindow row with
    | none => runAlerts cooldown now fails rest st
    | some (w, d) =>
      let sig := signatureOf row w d
      if canSend cooldown now st sig then
        if fails row then .error (st, [], sig)
        else
          match runAlerts cooldown now fails rest (markSent st sig now) with
          | .ok (st', sent) => .ok (st', sig :: sent)
          | .error (st', sent, fsig) => .error (st', sig :: sent, fsig)
      else runAlerts cooldown now fails rest st

/-- Signatures sent by a run, whether or not it aborted. -/
def sentOf :
    Except (AlertState × List String × String) (AlertState × List String) →
      List String
  | .ok (_, sent) => sent
  | .error (_, sent, _) => sent

/-- Alert state after a run, whether or not it aborted. -/
def stateOf :
    Except (AlertState × List String × String) (AlertState × List String) →
      AlertState
  | .ok (st, _) => st
  | .error (st, _, _) => st

theorem canSend_false_of_recent {cooldown : ℚ} {now : Int} {st : AlertState}
    {sig : String} {t : Int} (hst : st sig = some t)
    (hlt : ((now - t : Int) : ℚ) / 60000 < cooldown) :
    canSend cooldown now st sig = false := by
  rw [canSend, hst]
  exact decide_eq_false (not_le.mpr hlt)

theorem canSend_mono {cooldown : ℚ} {now now' : Int} {st : AlertState}
    {sig : String} (h : canSend cooldown now st sig = true) (hle : now ≤ now') :
    canSend cooldown now' st sig = true := by
  rw [canSend] at h ⊢
  cases hst : st sig with
  | none => rfl
  | some t =>
    rw [hst] at h
    simp only [decide_eq_true_eq] at h ⊢
    refine le_trans h ?_
    have : ((now - t : Int) : ℚ) ≤ ((now' - t : Int) : ℚ) := by
      exact_mod_cast Int.sub_le_sub_right hle t
    exact div_le_div_of_nonneg_right this (by norm_num) |>.trans_eq rfl

/-- During a run at `now`, a signature already recorded at `now` stays
recorded at `now` (every upsert in the run writes `now`). -/
theorem runAlerts_preserves_now (cooldown : ℚ) (now : Int)
    (fails : AlertRow → Bool) (rows : List AlertRow) :
    ∀ st : AlertState, ∀ sig, st sig = some now →
      stateOf (runAlerts cooldown now fails rows st) sig = some now := by
  induction rows with
  | nil => intro st sig h; exact h
  | cons row rest ih =>
    intro st sig h
    rw [runAlerts]
    cases hpick : pickBestTriggeredWindow row with
    | none =>
      simp only []
      exact ih st sig h
    | some wd =>
      obtain ⟨w, d⟩ := wd
      simp only []
      by_cases hcs : canSend cooldown now st (signatureOf row w d) = true
      · rw [if_pos hcs]
        cases hfails : fails row with
        | true =>
          simp only [if_pos rfl]
          exact h
        | false =>
          have hupd : markSent st (signatureOf row w d) now sig = some now := by
            rw [markSent]
            by_cases hs : sig = signatureOf row w d
            · rw [if_pos hs]
            · rw [if_neg hs]; exact h
          have := ih (markSent st (signatureOf row w d) now) sig hupd
          cases hrec : runAlerts cooldown now fails rest
              (markSent st (signatureOf row w d) now) with
          | ok v =>
            obtain ⟨st', sent⟩ := v
            rw [hrec] at this
            exact this
          | error e =>
            obtain ⟨st', sent, fsig⟩ := e
            rw [hrec] at this
            exact this
      · rw [if_neg hcs]
        exact ih st sig h

/-- C2 part (a) engine: a signature inside its cooldown window is neither
sent nor touched by a run. -/
theorem runAlerts_cooldown_blocks (cooldown : ℚ) (now : Int)
    (fails : AlertRow → Bool) (rows : List AlertRow) :
    ∀ st : AlertState, ∀ sig t, st sig = some t →
      ((now - t : Int) : ℚ) / 60000 < cooldown →
      sig ∉ sentOf (runAlerts cooldown now fails rows st) ∧
      stateOf (runAlerts cooldown now fails rows st) sig = some t := by
  induction rows with
  | nil =>
    intro st sig t hst _
    exact ⟨by simp [runAlerts, sentOf], hst⟩
  | cons row rest ih =>
    intro st sig t hst hlt
    rw [runAlerts]
    cases hpick : pickBestTriggeredWindow row with
    | none =>
      simp only []
      exact ih st sig t hst hlt
    | some wd =>
      obtain ⟨w, d⟩ := wd
      simp only []
      by_cases hcs : canSend cooldown now st (signatureOf row w d) = true
      · have hne : sig ≠ signatureOf row w d := by
          intro hs
          rw [← hs] at hcs
          rw [canSend_false_of_recent hst hlt] at hcs
          cases hcs
        rw [if_pos hcs]
        cases hfails : fails row with
        | true =>
          simp only [if_pos rfl]
          exact ⟨by simp [sentOf], hst⟩
        | false =>
          have hupd : markSent st (signatureOf row w d) now sig = some t := by
            rw [markSent, if_neg hne]
            exact hst
          have hih := ih (markSent st (signatureOf row w d) now) sig t hupd hlt
          cases hrec : runAlerts cooldown now fails rest
              (markSent st (signatureOf row w d) now) with
          | ok v =>
            obtain ⟨st', sent⟩ := v
            rw [hrec] at hih
            refine ⟨?_, hih.2⟩
            intro hmem
            rcases List.mem_cons.mp hmem with hk | hk
            · exact hne hk
            · exact hih.1 hk
          | error e =>
            obtain ⟨st', sent, fsig⟩ := e
            rw [hrec] at hih
            refine ⟨?_, hih.2⟩
            intro hmem
            rcases List.mem_cons.mp hmem with hk | hk
            · exact hne hk
            · exact hih.1 hk
      · rw [if_neg hcs]
        exact ih st sig t hst hlt

/-- C2 part (b) engine: a qualifying head row whose signature is sendable
is sent, and its `last_sent_at` is upserted to `now`. -/
theorem runAlerts_sends_head (cooldown : ℚ) (now : Int)
    (fails : AlertRow → Bool) (row : AlertRow) (rest : List AlertRow)
    (st : AlertState) (w : WindowKey) (d : ℚ)
    (hpick : pickBestTriggeredWindow row = some (w, d))
    (hok : fails row = false)
    (hfree : canSend cooldown now st (signatureOf row w d) = true) :
    signatureOf row w d ∈ sentOf (runAlerts cooldown now fails (row :: rest) st) ∧
    stateOf (runAlerts cooldown now fails (row :: rest) st)
      (signatureOf row w d) = some now := by
  rw [runAlerts, hpick]
  simp only []
  rw [hfree, hok]
  have hupd : markSent st (signatureOf row w d) now (signatureOf row w d) = some now := by
    rw [markSent, if_pos rfl]
  have hpres := runAlerts_preserves_now cooldown now fails rest
    (markSent st (signatureOf row w d) now) (signatureOf row w d) hupd
  cases hrec : runAlerts cooldown now fails rest
      (markSent st (signatureOf row w d) now) with
  | ok v =>
    obtain ⟨st', sent⟩ := v
    rw [hrec] at hpres
    exact ⟨List.mem_cons_self _ _, hpres⟩
  | error e =>
    obtain ⟨st', sent, fsig⟩ := e
    rw [hrec] at hpres
    exact ⟨List.mem_cons_self _ _, hpres⟩

theorem runAlerts_single_skip (cooldown : ℚ) (now : Int) (row : AlertRow)
    (st : AlertState) (w : WindowKey) (d : ℚ)
    (hpick : pickBestTriggeredWindow row = some (w, d))
    (hblock : canSend cooldown now st (signatureOf row w d) = false) :
    runAlerts cooldown now (fun _ => false) [row] st = .ok (st, []) := by
  rw [runAlerts, hpick]
  simp only []
  rw [hblock]
  rfl

theorem runAlerts_single_send_eq (cooldown : ℚ) (now : Int) (row : AlertRow)
    (st : AlertState) (w : WindowKey) (d : ℚ)
    (hpick : pickBestTriggeredWindow row = some (w, d))
    (hfree : canSend cooldown now st (signatureOf row w d) = true) :
    runAlerts cooldown now (fun _ => false) [row] st =
      .ok (markSent st (signatureOf row w d) now, [signatureOf row w d]) := by
  rw [runAlerts, hpick]
  simp only []
  rw [hfree]
  rfl

/-- N alerter cycles over the same single qualifying row, at the given
wall-clock times, accumulating the signatures sent (sends never fail). -/
def iterateRuns (cooldown : ℚ) (row : AlertRow) :
    List Int → AlertState → AlertState × List String
  | [], st => (st, [])
  | t :: ts, st =>
    match runAlerts cooldown t (fun _ => false) [row] st with
    | .ok (st', sent) =>
      let r := iterateRuns cooldown row ts st'
      (r.1, sent ++ r.2)
    | .error (st', sent, _) =>
      let r := iterateRuns cooldown row ts st'
      (r.1, sent ++ r.2)

theorem iterateRuns_blocked (cooldown : ℚ) (row : AlertRow) (w : WindowKey)
    (d : ℚ) (t0 : Int) (hpick : pickBestTriggeredWindow row = some (w, d)) :
    ∀ (ts : List Int) (st : AlertState),
      st (signatureOf row w d) = some t0 →
      (∀ t ∈ ts, ((t - t0 : Int) : ℚ) / 60000 < cooldown) →
      (iterateRuns cooldown row ts st).2.count (signatureOf row w d) = 0 ∧
      (iterateRuns cooldown row ts st).1 (signatureOf row w d) = some t0 := by
  intro ts
  induction ts with
  | nil => intro st hst _; exact ⟨rfl, hst⟩
  | cons t ts ih =>
    intro st hst hts
    have hblock : canSend cooldown t st (signatureOf row w d) = false :=
      canSend_false_of_recent hst (hts t (List.mem_cons_self t ts))
    rw [iterateRuns, runAlerts_single_skip cooldown t row st w d hpick hblock]
    simp only []
    have hih := ih st hst fun t' ht' => hts t' (List.mem_cons_of_mem t ht')
    exact ⟨hih.1, hih.2⟩

theorem iterateRuns_one_send (cooldown : ℚ) (row : AlertRow) (w : WindowKey)
    (d : ℚ) (t0 : Int) (ts : List Int) (st0 : AlertState)
    (hpick : pickBestTriggeredWindow row = some (w, d))
    (hst0 : st0 (signatureOf row w d) = none)
    (hts : ∀ t ∈ ts, ((t - t0 : Int) : ℚ) / 60000 < cooldown) :
    (iterateRuns cooldown row (t0 :: ts) st0).2.count (signatureOf row w d) = 1 := by
  have hfree : canSend cooldown t0 st0 (signatureOf row w d) = true := by
    rw [canSend, hst0]
  rw [iterateRuns, runAlerts_single_send_eq cooldown t0 row st0 w d hpick hfree]
  simp only []
  have hst1 : markSent st0 (signatureOf row w d) t0 (signatureOf row w d) = some t0 := by
    rw [markSent, if_pos rfl]
  have hb := iterateRuns_blocked cooldown row w d t0 hpick ts
    (markSent st0 (signatureOf row w d) t0) hst1 hts
  rw [List.count_append, hb.1]
  simp

/-- C2. Cooldown deduplication: (a) a signature whose `last_sent_at` is
within `cooldown` minutes of `now` is neither sent nor modified by a run;
(b) a qualifying row whose signature has no state row, or whose last send
is at least `cooldown` minutes old, is sent and its `last_sent_at`
upserted to `now`; (c) over one run that sends followed by any number of
further runs inside the cooldown window, exactly one send occurs for the
signature. -/
theorem alert_cooldown_at_most_once :
    (∀ (cooldown : ℚ) (now : Int) (fails : AlertRow → Bool)
        (rows : List AlertRow) (st : AlertState) (sig : String) (t : Int),
      st sig = some t → ((now - t : Int) : ℚ) / 60000 < cooldown →
      sig ∉ sentOf (runAlerts cooldown now fails rows st) ∧
      stateOf (runAlerts cooldown now fails rows st) sig = some t) ∧
    (∀ (cooldown : ℚ) (now : Int) (fails : AlertRow → Bool) (row : AlertRow)
        (rest : List AlertRow) (st : AlertState) (w : WindowKey) (d : ℚ),
      pickBestTriggeredWindow row = some (w, d) → fails row = false →
      (st (signatureOf row w d) = none ∨
        ∃ t, st (signatureOf row w d) = some t ∧
          cooldown ≤ ((now - t : Int) : ℚ) / 60000) →
      signatureOf row w d ∈ sentOf (runAlerts cooldown now fails (row :: rest) st) ∧
      stateOf (runAlerts cooldown now fails (row :: rest) st)
        (signatureOf row w d) = some now) ∧
    (∀ (cooldown : ℚ) (row : AlertRow) (w : WindowKey) (d : ℚ) (t0 : Int)
        (ts : List Int) (st0 : AlertState),
      pickBestTriggeredWindow row = some (w, d) →
      st0 (signatureOf row w d) = none →
      (∀ t ∈ ts, t0 ≤ t ∧ ((t - t0 : Int) : ℚ) / 60000 < cooldown) →
      (iterateRuns cooldown row (t0 :: ts) st0).2.count (signatureOf row w d) = 1) := by
  refine ⟨fun c n f rows st sig t hst hlt =>
    runAlerts_cooldown_blocks c n f rows st sig t hst hlt, ?_,
    fun c row w d t0 ts st0 hp h0 hts =>
      iterateRuns_one_send c row w d t0 ts st0 hp h0 fun t ht => (hts t ht).2⟩
  intro c n f row rest st w d hpick hok hfree
  have hcs : canSend c n st (signatureOf row w d) = true := by
    rcases hfree with h | ⟨t, ht, hge⟩
    · rw [canSend, h]
    · rw [canSend, ht]
      exact decide_eq_true hge
  exact runAlerts_sends_head c n f row rest st w d hpick hok hcs

/-- Witness for C2: a send at `t₀ = 0`, then a second run one minute later
under a 30-minute cooldown, produces exactly one send for the signature. -/
theorem alert_cooldown_at_most_once_witness :
    (iterateRuns 30 bestWindowExampleRow [0, 60000]
      (fun _ => none)).2.count (signatureOf bestWindowExampleRow .w30m 20) = 1 := by
  refine alert_cooldown_at_most_once.2.2 30 bestWindowExampleRow .w30m 20 0 [60000]
    (fun _ => none) pickBest_example_eval rfl ?_
  intro t ht
  rcases List.mem_singleton.mp ht with rfl
  norm_num

/-- Engine for C7: an aborted run leaves the failing signature's state
entry untouched and still sendable at `now`. -/
theorem runAlerts_error_state (cooldown : ℚ) (now : Int)
    (fails : AlertRow → Bool) :
    ∀ (rows : List AlertRow) (st st' : AlertState) (sent : List String)
      (fsig : String), 0 < cooldown →
      runAlerts cooldown now fails rows st = .error (st', sent, fsig) →
      st' fsig = st fsig ∧ canSend cooldown now st fsig = true := by
  intro rows
  induction rows with
  | nil => intro st st' sent fsig _ h; cases h
  | cons row rest ih =>
    intro st st' sent fsig hcd h
    rw [runAlerts] at h
    cases hpick : pickBestTriggeredWindow row with
    | none =>
      rw [hpick] at h
      simp only [] at h
      exact ih st st' sent fsig hcd h
    | some wd =>
      obtain ⟨w, d⟩ := wd
      rw [hpick] at h
      simp only [] at h
      by_cases hcs : canSend cooldown now st (signatureOf row w d) = true
      · rw [if_pos hcs] at h
        by_cases hfails : fails row = true
        · rw [if_pos hfails] at h
          cases h
          exact ⟨rfl, hcs⟩
        · rw [if_neg hfails] at h
          cases hrec : runAlerts cooldown now fails rest
              (markSent st (signatureOf row w d) now) with
          | ok v =>
            obtain ⟨st'', sent'⟩ := v
            rw [hrec] at h
            simp only [] at h
            cases h
          | error e =>
            obtain ⟨st2, sent2, fsig2⟩ := e
            rw [hrec] at h
            simp only [] at h
            have einj := Except.error.inj h
            have e1 : st2 = st' := congrArg Prod.fst einj
            have e3 : fsig2 = fsig := congrArg (fun x => x.2.2) einj
            rw [← e1, ← e3]
            have hih := ih (markSent st (signatureOf row w d) now) st2 sent2
              fsig2 hcd hrec
            by_cases hfs : fsig2 = signatureOf row w d
            · exfalso
              have hms : markSent st (signatureOf row w d) now fsig2 = some now := by
                rw [markSent, if_pos hfs]
              have h2 := hih.2
              rw [canSend, hms] at h2
              simp only [decide_eq_true_eq] at h2
              have hzero : ((now - now : Int) : ℚ) / 60000 = 0 := by
                simp
              rw [hzero] at h2
              exact absurd h2 (not_le.mpr hcd)
            · have hms : markSent st (signatureOf row w d) now fsig2 = st fsig2 := by
                rw [markSent, if_neg hfs]
              refine ⟨hih.1.trans hms, ?_⟩
              have h2 := hih.2
              rw [canSend, hms] at h2
              rw [canSend]
              exact h2
      · rw [if_neg hcs] at h
        exact ih st st' sent fsig hcd h

/-- C7. If the chat send throws for an alert, the run aborts without
recording `last_sent_at` for that alert's signature: the resulting state
agrees with the pre-run state on the signature, and on any later run
(`now' ≥ now`, cooldown positive) the signature is not blocked by the
cooldown, so it is retried. -/
theorem chat_send_failure_retry (cooldown : ℚ) (now : Int)
    (fails : AlertRow → Bool) (rows : List AlertRow) (st st' : AlertState)
    (sent : List String) (fsig : String) (hcd : 0 < cooldown)
    (h : runAlerts cooldown now fails rows st = .error (st', sent, fsig)) :
    st' fsig = st fsig ∧
    ∀ now' : Int, now ≤ now' → canSend cooldown now' st' fsig = true := by
  obtain ⟨h1, h2⟩ := runAlerts_error_state cooldown now fails rows st st' sent
    fsig hcd h
  refine ⟨h1, fun now' hle => ?_⟩
  have hnow : canSend cooldown now st' fsig = true := by
    rw [canSend, h1]
    rw [canSend] at h2
    exact h2
  exact canSend_mono hnow hle

/-- Witness for C7: a run whose only send throws leaves the signature
sendable one minute later. -/
theorem chat_send_failure_retry_witness :
    canSend 30 60000 (fun _ => none)
      (signatureOf bestWindowExampleRow .w30m 20) = true := by
  have h : runAlerts 30 0 (fun _ => true) [bestWindowExampleRow] (fun _ => none) =
      .error ((fun _ => none), [], signatureOf bestWindowExampleRow .w30m 20) := by
    rw [runAlerts, pickBest_example_eval]
    rfl
  exact (chat_send_failure_retry 30 0 (fun _ => true) [bestWindowExampleRow]
    (fun _ => none) (fun _ => none) [] (signatureOf bestWindowExampleRow .w30m 20)
    (by norm_num) h).2 60000 (by norm_num)

/-! ## Provider quote normalization -/

/-- `toProbability` (Polymarket adapter; the Kalshi adapter's
`centsToProbability` is identical): canonicalize a `toNumber`ed value —
treat values above 1 as percents, then clamp.  `toNumber` only yields
finite numbers, so the input is an `Option ℚ`. -/
def toProbability (v : Option ℚ) : Option ℚ :=
  match v with
  | none => none
  | some n => some (clampProbR (if n > 1 then n / 100 else n))

/-- C10. `clampProbability` is total: on every JavaScript number it returns
a finite value in `[0, 1]`, on NaN it returns 0, and consequently every
probability produced by the adapters' `toProbability` normalization lies
in `[0, 1]`. -/
theorem clampProbability_total :
    (∀ v : JsNum, ∃ q : ℚ, clampProbability v = .fin q ∧ 0 ≤ q ∧ q ≤ 1) ∧
    clampProbability .nan = .fin 0 ∧
    (∀ (v : Option ℚ) (p : ℚ), toProbability v = some p → 0 ≤ p ∧ p ≤ 1) := by
  refine ⟨?_, rfl, ?_⟩
  · intro v
    cases v with
    | nan => exact ⟨0, rfl, le_refl 0, by norm_num⟩
    | posInf => exact ⟨max 0 1, rfl, le_max_left 0 1, by norm_num⟩
    | negInf => exact ⟨0, rfl, le_refl 0, by norm_num⟩
    | fin q =>
      rw [clampProbability_fin]
      exact ⟨clampProbR q, rfl, clampProbR_nonneg q, clampProbR_le_one q⟩
  · intro v p h
    cases v with
    | none => cases h
    | some n =>
      rw [toProbability] at h
      cases h
      exact ⟨clampProbR_nonneg _, clampProbR_le_one _⟩

/-- Witness for C10 at a percent-style quote of 50. -/
theorem clampProbability_total_witness :
    0 ≤ clampProbR (if (50 : ℚ) > 1 then 50 / 100 else 50) ∧
    clampProbR (if (50 : ℚ) > 1 then 50 / 100 else 50) ≤ 1 :=
  clampProbability_total.2.2 (some 50) _ rfl

/-! ## Binary-quote adapter, plain variant (`providers/kalshi.ts`) -/

namespace Kalshi

/-- A Kalshi market listing row after `toNumber` extraction of the three
quote fields the adapter reads. -/
structure KMarket where
  yes_bid : Option ℚ
  yes_ask : Option ℚ
  last_price : Option ℚ
deriving DecidableEq, Repr

/-- `centsToProbability`: percent-normalize and clamp a quote value. -/
def centsToProbability (v : Option ℚ) : Option ℚ :=
  match v with
  | none => none
  | some n => some (clampProbR (if n > 1 then n / 100 else n))

/-- Yes-probability: the mid of bid and ask when both are present, else the
last price, else nothing (market skipped). -/
def yesProbOf (m : KMarket) : Option ℚ :=
  match centsToProbability m.yes_bid, centsToProbability m.yes_ask with
  | some b, some a => some ((b + a) / 2)
  | _, _ => centsToProbability m.last_price

/-- `spread_pp = |ask − bid| × 100` when both quotes exist, else null. -/
def spreadPpOf (m : KMarket) : Option ℚ :=
  match centsToProbability m.yes_bid, centsToProbability m.yes_ask with
  | some b, some a => some (|a - b| * 100)
  | _, _ => none

end Kalshi

/-- An emitted outcome snapshot (the fields the binary-quote claims use). -/
structure KSnap where
  outcomeLabel : String
  probability : ℚ
  spreadPp : Option ℚ
deriving DecidableEq, Repr

namespace Kalshi

/-- Per-market snapshot emission: skip when no probability is derivable,
else emit the yes outcome and the no outcome with probability
`clampProbability(1 − yes)`. -/
def processMarket (m : KMarket) : List KSnap :=
  match yesProbOf m with
  | none => []
  | some p => [⟨"Yes", p, spreadPpOf m⟩, ⟨"No", clampProbR (1 - p), spreadPpOf m⟩]

theorem centsToProbability_mem {v : Option ℚ} {p : ℚ}
    (h : centsToProbability v = some p) : 0 ≤ p ∧ p ≤ 1 := by
  cases v with
  | none => cases h
  | some n =>
    rw [centsToProbability] at h
    cases h
    exact ⟨clampProbR_nonneg _, clampProbR_le_one _⟩

theorem yesProbOf_mem {m : KMarket} {p : ℚ} (h : yesProbOf m = some p) :
    0 ≤ p ∧ p ≤ 1 := by
  rw [yesProbOf] at h
  cases hb : centsToProbability m.yes_bid with
  | none =>
    rw [hb] at h
    simp only [] at h
    exact centsToProbability_mem h
  | some b =>
    rw [hb] at h
    cases ha : centsToProbability m.yes_ask with
    | none =>
      rw [ha] at h
      simp only [] at h
      exact centsToProbability_mem h
    | some a =>
      rw [ha] at h
      simp only [] at h
      cases h
      obtain ⟨hb0, hb1⟩ := centsToProbability_mem hb
      obtain ⟨ha0, ha1⟩ := centsToProbability_mem ha
      constructor
      · positivity
      · linarith

/-- C8. For every market the binary-quote adapter emits, the yes and no
snapshots of the same cycle satisfy: the no probability is
`clampProbability(1 − yes)`, the yes probability lies in `[0, 1]`, and
hence the two probabilities sum to exactly 1. -/
theorem binary_yes_no_sum_one (m : KMarket) (s₁ s₂ : KSnap)
    (h : processMarket m = [s₁, s₂]) :
    s₂.probability = clampProbR (1 - s₁.probability) ∧
    0 ≤ s₁.probability ∧ s₁.probability ≤ 1 ∧
    s₁.probability + s₂.probability = 1 := by
  rw [processMarket] at h
  cases hy : yesProbOf m with
  | none =>
    rw [hy] at h
    simp only [] at h
    cases h
  | some p =>
    rw [hy] at h
    simp only [] at h
    obtain ⟨e1, h'⟩ := List.cons_eq_cons.mp h
    obtain ⟨e2, -⟩ := List.cons_eq_cons.mp h'
    obtain ⟨hp0, hp1⟩ := yesProbOf_mem hy
    subst e1
    subst e2
    refine ⟨rfl, hp0, hp1, ?_⟩
    show p + clampProbR (1 - p) = 1
    rw [clampProbR_of_mem (1 - p) (by linarith) (by linarith)]
    ring

/-- A Kalshi market with bid 40¢ and ask 50¢. -/
def kalshiExampleMarket : KMarket := ⟨some 40, some 50, none⟩

theorem kalshiExampleMarket_eval :
    processMarket kalshiExampleMarket =
      [⟨"Yes", 9/20, some 10⟩, ⟨"No", 11/20, some 10⟩] := by
  have c40 : clampProbR ((2 : ℚ) / 5) = 2/5 :=
    clampProbR_of_mem _ (by norm_num) (by norm_num)
  have c50 : clampProbR ((1 : ℚ) / 2) = 1/2 :=
    clampProbR_of_mem _ (by norm_num) (by norm_num)
  have hb : centsToProbability (some (40 : ℚ)) = some (2/5) := by
    rw [centsToProbability]
    norm_num [c40]
  have ha : centsToProbability (some (50 : ℚ)) = some (1/2) := by
    rw [centsToProbability]
    norm_num [c50]
  have hy : yesProbOf kalshiExampleMarket = some (9/20) := by
    rw [yesProbOf]
    show (match centsToProbability (some 40), centsToProbability (some 50) with
      | some b, some a => some ((b + a) / 2)
      | _, _ => centsToProbability none) = some (9/20)
    rw [hb, ha]
    simp only []
    norm_num
  have hs : spreadPpOf kalshiExampleMarket = some 10 := by
    rw [spreadPpOf]
    show (match centsToProbability (some 40), centsToProbability (some 50) with
      | some b, some a => some (|a - b| * 100)
      | _, _ => none) = some 10
    rw [hb, ha]
    simp only []
    have habs : |(1 : ℚ)/2 - 2/5| = 1/10 := by
      rw [show (1 : ℚ)/2 - 2/5 = 1/10 by norm_num]
      exact abs_of_nonneg (by norm_num)
    rw [habs]
    norm_num
  rw [processMarket, hy]
  simp only [hs]
  have hno : clampProbR (1 - (9 : ℚ)/20) = 11/20 := by
    rw [show (1 : ℚ) - 9/20 = 11/20 by norm_num]
    exact clampProbR_of_mem _ (by norm_num) (by norm_num)
  rw [hno]

/-- Witness for C8 at `kalshiExampleMarket`: probabilities 9/20 and 11/20
sum to one. -/
theorem binary_yes_no_sum_one_witness :
    (KSnap.mk "Yes" (9/20) (some 10)).probability +
      (KSnap.mk "No" (11/20) (some 10)).probability = 1 :=
  (binary_yes_no_sum_one kalshiExampleMarket _ _ kalshiExampleMarket_eval).2.2.2

end Kalshi

/-! ## Binary-quote adapter, combo-market variant (second Kalshi adapter)
with the 0/100 pseudo-boundary sentinel rule. -/

namespace KalshiMve

/-- A market listing row with the five quote fields this adapter reads. -/
structure MveMarket where
  yes_bid : Option ℚ
  yes_ask : Option ℚ
  no_bid : Option ℚ
  no_ask : Option ℚ
  last_price : Option ℚ
deriving DecidableEq, Repr

/-- `centsToQuoteProbability`: 0 and 100 are placeholders for an absent
quote and map to null; anything strictly inside becomes `clamp(n/100)`. -/
def centsToQuoteProbability (v : Option ℚ) : Option ℚ :=
  match v with
  | none => none
  | some n => if n ≤ 0 ∨ 100 ≤ n then none else some (clampProbR (n / 100))

/-- Yes-probability: mid of the (sentinel-filtered) yes quotes when both
survive, else `centsToProbability(last_price)`. -/
def yesProbOf (m : MveMarket) : Option ℚ :=
  match centsToQuoteProbability m.yes_bid, centsToQuoteProbability m.yes_ask with
  | some b, some a => some ((b + a) / 2)
  | _, _ => Kalshi.centsToProbability m.last_price

/-- Yes-side spread in pp, null when a side is missing. -/
def spreadYesPp (m : MveMarket) : Option ℚ :=
  match centsToQuoteProbability m.yes_bid, centsToQuoteProbability m.yes_ask with
  | some b, some a => some (|a - b| * 100)
  | _, _ => none

/-- No-side spread in pp, null when a side is missing. -/
def spreadNoPp (m : MveMarket) : Option ℚ :=
  match centsToQuoteProbability m.no_bid, centsToQuoteProbability m.no_ask with
  | some b, some a => some (|a - b| * 100)
  | _, _ => none

/-- `spreadPp = spreadYesPp ?? spreadNoPp`. -/
def spreadPpOf (m : MveMarket) : Option ℚ :=
  match spreadYesPp m with
  | some s => some s
  | none => spreadNoPp m

/-- Per-market emission of the yes and no snapshots. -/
def processMveMarket (m : MveMarket) : List KSnap :=
  match yesProbOf m with
  | none => []
  | some p => [⟨"Yes", p, spreadPpOf m⟩, ⟨"No", clampProbR (1 - p), spreadPpOf m⟩]

/-- A quote value that survives the sentinel rule: present and strictly
inside `(0, 100)`. -/
def validQuote (v : Option ℚ) : Prop := ∃ n, v = some n ∧ 0 < n ∧ n < 100

theorem centsToQuoteProbability_eq_none_iff (v : Option ℚ) :
    centsToQuoteProbability v = none ↔ ¬validQuote v := by
  cases v with
  | none =>
    simp only [centsToQuoteProbability, validQuote]
    constructor
    · rintro - ⟨n, hn, -⟩
      cases hn
    · intro _
      trivial
  | some n =>
    rw [centsToQuoteProbability]
    by_cases hb : n ≤ 0 ∨ 100 ≤ n
    · rw [if_pos hb]
      simp only [validQuote, true_iff]
      rintro ⟨n', hn', h0, h100⟩
      cases hn'
      rcases hb with hb | hb
      · exact absurd h0 (not_lt.mpr hb)
      · exact absurd h100 (not_lt.mpr hb)
    · rw [if_neg hb]
      push_neg at hb
      constructor
      · intro h
        cases h
      · intro h
        exact absurd ⟨n, rfl, hb.1, hb.2⟩ h

theorem centsToQuoteProbability_eq_of_valid {n : ℚ} (h0 : 0 < n) (h100 : n < 100) :
    centsToQuoteProbability (some n) = some (clampProbR (n / 100)) := by
  rw [centsToQuoteProbability, if_neg]
  push_neg
  exact ⟨h0, h100⟩

/-- Both yes quotes survive the sentinel rule. -/
def validYesPair (m : MveMarket) : Prop :=
  validQuote m.yes_bid ∧ validQuote m.yes_ask

/-- Both no quotes survive the sentinel rule. -/
def validNoPair (m : MveMarket) : Prop :=
  validQuote m.no_bid ∧ validQuote m.no_ask

theorem spreadYesPp_eq_none_of_invalid {m : MveMarket} (h : ¬validYesPair m) :
    spreadYesPp m = none := by
  rw [spreadYesPp]
  cases hb : centsToQuoteProbability m.yes_bid with
  | none => rfl
  | some b =>
    cases ha : centsToQuoteProbability m.yes_ask with
    | none => rfl
    | some a =>
      exfalso
      apply h
      constructor
      · by_contra hv
        rw [← centsToQuoteProbability_eq_none_iff] at hv
        rw [hv] at hb
        cases hb
      · by_contra hv
        rw [← centsToQuoteProbability_eq_none_iff] at hv
        rw [hv] at ha
        cases ha

theorem yesProbOf_last_of_invalid {m : MveMarket} (h : ¬validYesPair m) :
    yesProbOf m = Kalshi.centsToProbability m.last_price := by
  rw [yesProbOf]
  cases hb : centsToQuoteProbability m.yes_bid with
  | none => rfl
  | some b =>
    cases ha : centsToQuoteProbability m.yes_ask with
    | none => rfl
    | some a =>
      exfalso
      apply h
      constructor
      · by_contra hv
        rw [← centsToQuoteProbability_eq_none_iff] at hv
        rw [hv] at hb
        cases hb
      · by_contra hv
        rw [← centsToQuoteProbability_eq_none_iff] at hv
        rw [hv] at ha
        cases ha

/-- The sentinel market of the C9 counterexample: `yes_bid = 0` (an
absent-quote placeholder), `yes_ask = 30`, a live no quote `40/45`, and
`last_price = 35`. -/
def mveSentinelMarket : MveMarket :=
  ⟨some 0, some 30, some 40, some 45, some 35⟩

theorem mveSentinelMarket_eval :
    processMveMarket mveSentinelMarket =
      [⟨"Yes", 7/20, some 5⟩, ⟨"No", 13/20, some 5⟩] := by
  have hbid : centsToQuoteProbability (some (0 : ℚ)) = none := by
    rw [centsToQuoteProbability, if_pos (Or.inl (le_refl 0))]
  have hnb : centsToQuoteProbability (some (40 : ℚ)) = some (2/5) := by
    rw [centsToQuoteProbability_eq_of_valid (by norm_num) (by norm_num)]
    rw [show (40 : ℚ) / 100 = 2/5 by norm_num,
      clampProbR_of_mem _ (by norm_num) (by norm_num)]
  have hna : centsToQuoteProbability (some (45 : ℚ)) = some (9/20) := by
    rw [centsToQuoteProbability_eq_of_valid (by norm_num) (by norm_num)]
    rw [show (45 : ℚ) / 100 = 9/20 by norm_num,
      clampProbR_of_mem _ (by norm_num) (by norm_num)]
  have hlast : Kalshi.centsToProbability (some (35 : ℚ)) = some (7/20) := by
    rw [Kalshi.centsToProbability]
    norm_num [show clampProbR ((7 : ℚ)/20) = 7/20 from
      clampProbR_of_mem _ (by norm_num) (by norm_num)]
  have hy : yesProbOf mveSentinelMarket = some (7/20) := by
    rw [yesProbOf]
    show (match centsToQuoteProbability (some 0), centsToQuoteProbability (some 30) with
      | some b, some a => some ((b + a) / 2)
      | _, _ => Kalshi.centsToProbability (some 35)) = some (7/20)
    rw [hbid]
    simp only []
    exact hlast
  have hsy : spreadYesPp mveSentinelMarket = none := by
    rw [spreadYesPp]
    show (match centsToQuoteProbability (some 0), centsToQuoteProbability (some 30) with
      | some b, some a => some (|a - b| * 100)
      | _, _ => none) = none
    rw [hbid]
  have hsn : spreadNoPp mveSentinelMarket = some 5 := by
    rw [spreadNoPp]
    show (match centsToQuoteProbability (some 40), centsToQuoteProbability (some 45) with
      | some b, some a => some (|a - b| * 100)
      | _, _ => none) = some 5
    rw [hnb, hna]
    simp only []
    have habs : |(9 : ℚ)/20 - 2/5| = 1/20 := by
      rw [show (9 : ℚ)/20 - 2/5 = 1/20 by norm_num]
      exact abs_of_nonneg (by norm_num)
    rw [habs]
    norm_num
  have hsp : spreadPpOf mveSentinelMarket = some 5 := by
    rw [spreadPpOf, hsy, hsn]
  rw [processMveMarket, hy]
  simp only [hsp]
  have hno : clampProbR (1 - (7 : ℚ)/20) = 13/20 := by
    rw [show (1 : ℚ) - 7/20 = 13/20 by norm_num]
    exact clampProbR_of_mem _ (by norm_num) (by norm_num)
  rw [hno]

/-- C9 counterexample. On `mveSentinelMarket` the yes bid is the sentinel
0, so the yes quote pair is incomplete and per the claim `spread_pp` should
be null; but the adapter falls back to the no-side quotes and emits
`spread_pp = 5`.  (The yes probability does fall back to the last price
`0.35`, as the claim's first half says.) -/
theorem kalshi_spread_sentinel_counterexample :
    centsToQuoteProbability (some 0) = none ∧
    ¬validYesPair mveSentinelMarket ∧
    (processMveMarket mveSentinelMarket).map KSnap.spreadPp =
      [some 5, some 5] ∧
    (some (5 : ℚ) ≠ (none : Option ℚ)) := by
  refine ⟨by rw [centsToQuoteProbability, if_pos (Or.inl (le_refl 0))], ?_, ?_, by simp⟩
  · rintro ⟨⟨n, hn, h0, -⟩, -⟩
    cases hn
    exact lt_irrefl 0 h0
  · rw [mveSentinelMarket_eval]
    rfl

/-- C9 (amended). In the combo-market Kalshi adapter, bid/ask values at the
pseudo-boundaries 0 and 100 are treated as missing before deriving prices:
the yes-probability is the mid of the yes quotes only when both are present
and strictly inside `(0, 100)`, otherwise the last price is used; the
emitted `spread_pp` is the yes-side spread when both yes quotes survive,
otherwise it falls back to the no-side spread when both no quotes survive,
and is null only when both pairs are incomplete. -/
theorem kalshi_quote_sentinel_spec (m : MveMarket) (s₁ s₂ : KSnap)
    (h : processMveMarket m = [s₁, s₂]) :
    (∀ nb na, m.yes_bid = some nb → m.yes_ask = some na →
      0 < nb → nb < 100 → 0 < na → na < 100 →
      s₁.probability = (clampProbR (nb / 100) + clampProbR (na / 100)) / 2 ∧
      s₁.spreadPp = some (|clampProbR (na / 100) - clampProbR (nb / 100)| * 100)) ∧
    (¬validYesPair m → ∀ lp, m.last_price = some lp →
      s₁.probability = clampProbR (if lp > 1 then lp / 100 else lp)) ∧
    (¬validYesPair m → ∀ nb na, m.no_bid = some nb → m.no_ask = some na →
      0 < nb → nb < 100 → 0 < na → na < 100 →
      s₁.spreadPp = some (|clampProbR (na / 100) - clampProbR (nb / 100)| * 100)) ∧
    (¬validYesPair m → ¬validNoPair m → s₁.spreadPp = none) := by
  have hs₁ : ∀ p, yesProbOf m = some p → s₁ = ⟨"Yes", p, spreadPpOf m⟩ := by
    intro p hp
    rw [processMveMarket, hp] at h
    simp only [] at h
    exact (List.cons_eq_cons.mp h).1.symm
  refine ⟨?_, ?_, ?_, ?_⟩
  · intro nb na hnb hna h0b h100b h0a h100a
    have hb : centsToQuoteProbability m.yes_bid = some (clampProbR (nb / 100)) := by
      rw [hnb]
      exact centsToQuoteProbability_eq_of_valid h0b h100b
    have ha : centsToQuoteProbability m.yes_ask = some (clampProbR (na / 100)) := by
      rw [hna]
      exact centsToQuoteProbability_eq_of_valid h0a h100a
    have hy : yesProbOf m = some ((clampProbR (nb / 100) + clampProbR (na / 100)) / 2) := by
      rw [yesProbOf, hb, ha]
    have hsy : spreadYesPp m =
        some (|clampProbR (na / 100) - clampProbR (nb / 100)| * 100) := by
      rw [spreadYesPp, hb, ha]
    have := hs₁ _ hy
    subst this
    refine ⟨rfl, ?_⟩
    show spreadPpOf m = _
    rw [spreadPpOf, hsy]
  · intro hinv lp hlp
    have hy : yesProbOf m = some (clampProbR (if lp > 1 then lp / 100 else lp)) := by
      rw [yesProbOf_last_of_invalid hinv, hlp, Kalshi.centsToProbability]
    have := hs₁ _ hy
    subst this
    rfl
  · intro hinv nb na hnb hna h0b h100b h0a h100a
    cases hy : yesProbOf m with
    | none => rw [processMveMarket, hy] at h; cases h
    | some p =>
      have := hs₁ _ hy
      subst this
      show spreadPpOf m = _
      rw [spreadPpOf, spreadYesPp_eq_none_of_invalid hinv]
      rw [spreadNoPp]
      have hb : centsToQuoteProbability m.no_bid = some (clampProbR (nb / 100)) := by
        rw [hnb]
        exact centsToQuoteProbability_eq_of_valid h0b h100b
      have ha : centsToQuoteProbability m.no_ask = some (clampProbR (na / 100)) := by
        rw [hna]
        exact centsToQuoteProbability_eq_of_valid h0a h100a
      rw [hb, ha]
  · intro hinvY hinvN
    cases hy : yesProbOf m with
    | none => rw [processMveMarket, hy] at h; cases h
    | some p =>
      have := hs₁ _ hy
      subst this
      show spreadPpOf m = none
      rw [spreadPpOf, spreadYesPp_eq_none_of_invalid hinvY]
      rw [spreadNoPp]
      cases hb : centsToQuoteProbability m.no_bid with
      | none => rfl
      | some b =>
        cases ha : centsToQuoteProbability m.no_ask with
        | none => rfl
        | some a =>
          exfalso
          apply hinvN
          constructor
          · by_contra hv
            rw [← centsToQuoteProbability_eq_none_iff] at hv
            rw [hv] at hb
            cases hb
          · by_contra hv
            rw [← centsToQuoteProbability_eq_none_iff] at hv
            rw [hv] at ha
            cases ha

/-- Witness for the amended C9 at the sentinel market: the emitted spread
is the no-side spread `|0.45 − 0.40| × 100 = 5`. -/
theorem kalshi_quote_sentinel_spec_witness :
    (KSnap.mk "Yes" (7/20) (some 5)).spreadPp =
      some (|clampProbR ((45 : ℚ) / 100) - clampProbR ((40 : ℚ) / 100)| * 100) :=
  (kalshi_quote_sentinel_spec mveSentinelMarket _ _ mveSentinelMarket_eval).2.2.1
    (by rintro ⟨⟨n, hn, h0, -⟩, -⟩; cases hn; exact lt_irrefl 0 h0)
    40 45 rfl rfl (by norm_num) (by norm_num) (by norm_num) (by norm_num)

end KalshiMve

/-! ## Read API movers endpoint (`apps/web/app/api/movers/route.ts`) -/

namespace Movers

/-- `parsePage`: default 1 on a missing/non-finite value, else
`Math.max(1, Math.floor(numeric))`. -/
def parsePage (v : Option ℚ) : Int :=
  match v with
  | none => 1
  | some q => max 1 ⌊q⌋

/-- `parsePageSize`: default 50 on a missing/non-finite value, else
`Math.max(10, Math.min(100, Math.floor(numeric)))`. -/
def parsePageSize (v : Option ℚ) : Int :=
  match v with
  | none => 50
  | some q => max 10 (min 100 ⌊q⌋)

/-- One joined base row of the movers queries (deltas ⋈ markets ⋈ outcomes
⋈ snapshots ⟕ classifications), with the chosen window's delta projected as
`sort_delta`. -/
structure BaseRow where
  provider : String
  market_id : String
  outcome_id : String
  ts : Int
  sort_delta : Option ℚ
  liquidity_usd : Option ℚ
  spread_pp : Option ℚ
  label : Option String
  normalized_category : String
deriving DecidableEq, Repr

/-- The resolved query parameters the WHERE clause depends on. -/
structure Params where
  providers : List String
  category : String
  tab : String
  includeLowLiquidity : Bool
  minLiquidity : ℚ
  maxSpread : ℚ
deriving DecidableEq, Repr

/-- The movers WHERE clause: provider filter, optional category equality,
liquidity/spread gates unless `includeLowLiquidity`, and the tab filter on
`COALESCE(label, 'unclear')`. -/
def rowQualifies (ps : Params) (r : BaseRow) : Bool :=
  ps.providers.contains r.provider &&
  (if ps.category ≠ "" ∧ ps.category ≠ "all" then
    decide (r.normalized_category = ps.category) else true) &&
  (if ps.includeLowLiquidity then true
   else decide (ps.minLiquidity ≤ r.liquidity_usd.getD 0) &&
     decide (r.spread_pp.getD 100 ≤ ps.maxSpread)) &&
  (if ps.tab = "opaque" then decide (r.label.getD "unclear" = "opaque_info_sensitive")
   else if ps.tab = "exogenous" then
     decide (r.label.getD "unclear" = "exogenous_arbitrage")
   else true)

/-- The rows at the latest tick (`MAX(ts_minute)` over deltas) satisfying
the WHERE clause. -/
def qualifyingAtLatest (ps : Params) (rows : List BaseRow) : List BaseRow :=
  match rows.argmax (·.ts) with
  | none => []
  | some top => rows.filter fun r => decide (r.ts = top.ts) && rowQualifies ps r

/-- The distinct `(provider, market_id)` keys of the qualifying rows. -/
def marketKeys (ps : Params) (rows : List BaseRow) : List (String × String) :=
  ((qualifyingAtLatest ps rows).map fun r => (r.provider, r.market_id)).dedup

/-- The count query: `COUNT(*)` over `GROUP BY provider, market_id`. -/
def totalRowsOf (ps : Params) (rows : List BaseRow) : Nat :=
  (marketKeys ps rows).length

/-- `totalRows === 0 ? 0 : Math.ceil(totalRows / pageSize)`. -/
def totalPagesOf (totalRows : Nat) (pageSize : Int) : Int :=
  if totalRows = 0 then 0 else ⌈(totalRows : ℚ) / (pageSize : ℚ)⌉

/-- `ORDER BY sort_delta dir NULLS LAST`: does `a` sort strictly before
`b`? -/
def deltaBefore (desc : Bool) (a b : Option ℚ) : Bool :=
  match a, b with
  | none, _ => false
  | some _, none => true
  | some x, some y => if desc then decide (y < x) else decide (x < y)

/-- `ROW_NUMBER() OVER (PARTITION BY market ORDER BY sort_delta …) = 1`:
the lead outcome among one market's qualifying rows. -/
def pickLead (desc : Bool) : List BaseRow → Option BaseRow
  | [] => none
  | r :: rest =>
    some (rest.foldl
      (fun c r' => if deltaBefore desc r'.sort_delta c.sort_delta then r' else c) r)

/-- The ranked lead query before the outer sort: one lead row per distinct
qualifying market. -/
def leadRows (ps : Params) (desc : Bool) (rows : List BaseRow) : List BaseRow :=
  (marketKeys ps rows).filterMap fun k =>
    pickLead desc ((qualifyingAtLatest ps rows).filter fun r =>
      decide (r.provider = k.1) && decide (r.market_id = k.2))

/-- `LIMIT pageSize OFFSET (page − 1) · pageSize`. -/
def pageSlice {α : Type} (page pageSize : Int) (l : List α) : List α :=
  (l.drop ((page - 1) * pageSize).toNat).take pageSize.toNat

/-- The page of market lead rows: order by the lead's sort delta under the
chosen direction (NULLS LAST) and slice. -/
def moversPage (ps : Params) (desc : Bool) (page pageSize : Int)
    (rows : List BaseRow) : List BaseRow :=
  pageSlice page pageSize
    ((leadRows ps desc rows).mergeSort
      fun a b => !deltaBefore desc b.sort_delta a.sort_delta)

theorem length_filterMap_eq {α β : Type} (f : α → Option β) :
    ∀ l : List α, (∀ k ∈ l, (f k).isSome) →
      (l.filterMap f).length = l.length := by
  intro l
  induction l with
  | nil => intro _; rfl
  | cons a l ih =>
    intro h
    rw [List.filterMap_cons]
    cases hf : f a with
    | none =>
      have := h a (List.mem_cons_self a l)
      rw [hf] at this
      cases this
    | some b =>
      simp only []
      rw [List.length_cons, List.length_cons,
        ih fun k hk => h k (List.mem_cons_of_mem a hk)]

theorem pickLead_isSome (desc : Bool) (l : List BaseRow) (h : l ≠ []) :
    (pickLead desc l).isSome := by
  cases l with
  | nil => exact absurd rfl h
  | cons r rest => rfl

theorem leadRows_length (ps : Params) (desc : Bool) (rows : List BaseRow) :
    (leadRows ps desc rows).length = totalRowsOf ps rows := by
  rw [leadRows, totalRowsOf]
  apply length_filterMap_eq
  intro k hk
  rw [marketKeys, List.mem_dedup] at hk
  obtain ⟨r, hr, hkey⟩ := List.mem_map.mp hk
  apply pickLead_isSome
  apply List.ne_nil_of_mem (a := r)
  rw [List.mem_filter]
  refine ⟨hr, ?_⟩
  rw [← hkey]
  simp

/-- C6. Movers pagination: `pageSize` is clamped into `[10, 100]` with
default 50 and `page` is at least 1 (default 1); the lead query returns
one market row per distinct qualifying market at the latest tick, so
`totalRows` counts exactly those markets; `totalPages = ⌈totalRows /
pageSize⌉`; the returned page is the slice of the sorted market rows at
offset `(page − 1) · pageSize` of length `min(pageSize, totalRows −
offset)`; and with 125 qualifying markets, `pageSize = 50`, `page = 3`,
the endpoint returns 25 markets with `totalPages = 3`. -/
theorem movers_pagination_spec :
    (parsePageSize none = 50 ∧
      ∀ v, 10 ≤ parsePageSize v ∧ parsePageSize v ≤ 100) ∧
    (parsePage none = 1 ∧ ∀ v, 1 ≤ parsePage v) ∧
    (∀ ps desc rows, (leadRows ps desc rows).length = totalRowsOf ps rows) ∧
    (∀ (n : ℕ) (p : Int), 0 < p → totalPagesOf n p = ⌈(n : ℚ) / (p : ℚ)⌉) ∧
    (∀ ps desc (page pageSize : Int) rows, 1 ≤ page → 0 < pageSize →
      (moversPage ps desc page pageSize rows).length =
        min pageSize.toNat (totalRowsOf ps rows - ((page - 1) * pageSize).toNat)) ∧
    (totalPagesOf 125 50 = 3 ∧ (pageSlice 3 50 (List.range 125)).length = 25) := by
  refine ⟨⟨rfl, ?_⟩, ⟨rfl, ?_⟩, leadRows_length, ?_, ?_, ?_, ?_⟩
  · intro v
    cases v with
    | none => constructor <;> norm_num [parsePageSize]
    | some q =>
      rw [parsePageSize]
      exact ⟨le_max_left 10 _, max_le (by norm_num) (min_le_left 100 _)⟩
  · intro v
    cases v with
    | none => norm_num [parsePage]
    | some q => rw [parsePage]; exact le_max_left 1 _
  · intro n p hp
    rw [totalPagesOf]
    by_cases hn : n = 0
    · rw [if_pos hn, hn]
      norm_num
    · rw [if_neg hn]
  · intro ps desc page pageSize rows _ _
    rw [moversPage, pageSlice, List.length_take, List.length_drop,
      List.length_mergeSort, leadRows_length]
  · rw [totalPagesOf, if_neg (by norm_num)]
    rw [Int.ceil_eq_iff] <;> norm_num
  · decide

/-- The default movers parameters (providers polymarket+kalshi, no
category/tab filter, low-liquidity rows included). -/
def defaultParams : Params := ⟨["polymarket", "kalshi"], "all", "all", true, 5000, 15⟩

/-- Witness for C6 on the empty store: page 3 of size 50 has
`min(50, 0 − 100) = 0` rows. -/
theorem movers_pagination_spec_witness :
    (moversPage defaultParams true 3 50 []).length =
      min ((50 : Int)).toNat (totalRowsOf defaultParams [] -
        (((3 : Int) - 1) * 50).toNat) :=
  movers_pagination_spec.2.2.2.2.1 defaultParams true 3 50 [] (by norm_num)
    (by norm_num)

end Movers

end PredictRadar
